import Mathlib

/-!
Verification of the grading / test-synthesis core of the `code_testing`
repository.  The Python services (`ai_generator.py`, `code_runner.py`,
`compiler.py`, `config.py`) are shallowly embedded below: pure functions
become Lean functions on `List Char` strings and `Nat`/`Int`/`Rat`
numbers; the external effects (the generation model, `json.loads`,
`re.findall`, the Docker subprocess) are abstracted as oracle values the
functions are parameterised over, so that theorems quantify over every
possible behaviour of those collaborators.
-/

namespace CodeTesting

/-- Strings are modelled as lists of characters. -/
abbrev LChar := List Char

/-- Conversion helper from Lean string literals. -/
def str (s : String) : LChar := s.data

/-! ### Configuration constants, from `src/config.py`. -/

def EXECUTION_TIMEOUT : Nat := 10

def MAX_MEMORY_MB : Nat := 128

def MAX_OUTPUT_SIZE : Nat := 10 * 1024 * 1024

def SANDBOX_USER : String := "coderunner"

def MAX_TEST_COUNT : Int := 30

/-! ### Python string primitives used by the services. -/

/-- Characters removed by Python `str.strip()` (ASCII whitespace). -/
def pyIsSpace (c : Char) : Bool :=
  c = ' ' || c = '\t' || c = '\n' || c = '\x0d' || c = '\x0b' || c = '\x0c'

/-- Python `s.strip()`: drop leading and trailing whitespace only. -/
def pyStrip (s : LChar) : LChar :=
  ((s.dropWhile pyIsSpace).reverse.dropWhile pyIsSpace).reverse

/-! ### WeightAllocator: `TestGenerator._calculate_balanced_weights`. -/

/-- Embedding of `TestGenerator._calculate_balanced_weights` from
`src/services/ai_generator.py`: `base = 100 // count`, `remainder =
100 % count`, the first `remainder` positions get `base + 1`, the rest
get `base`; `count = 0` yields the empty list. -/
def calculate_balanced_weights (count : Nat) : List Nat :=
  if count = 0 then []
  else (List.range count).map fun i =>
    if i < 100 % count then 100 / count + 1 else 100 / count

theorem calculate_balanced_weights_length (n : Nat) :
    (calculate_balanced_weights n).length = n := by
  unfold calculate_balanced_weights
  split
  · simp_all
  · simp

theorem calculate_balanced_weights_sum (n : Nat) (hn : 0 < n) :
    (calculate_balanced_weights n).sum = 100 := by
  unfold calculate_balanced_weights
  rw [if_neg (Nat.pos_iff_ne_zero.mp hn)]
  have hle : 100 % n ≤ n := Nat.le_of_lt (Nat.mod_lt _ hn)
  obtain ⟨k, hk⟩ : ∃ k, n = 100 % n + k :=
    ⟨n - 100 % n, (Nat.add_sub_cancel' hle).symm⟩
  have hq : n * (100 / n) + 100 % n = 100 := Nat.div_add_mod 100 n
  have hsplit : List.range n =
      List.range' 0 (100 % n) ++ List.range' (100 % n) k := by
    have h := List.range'_append 0 (100 % n) k 1
    simp only [Nat.one_mul, Nat.zero_add] at h
    rw [List.range_eq_range']
    conv_lhs => rw [hk]
    rw [Nat.add_comm (100 % n) k]
    exact h.symm
  rw [hsplit, List.map_append, List.sum_append]
  have h1 : (List.range' 0 (100 % n)).map (fun i =>
      if i < 100 % n then 100 / n + 1 else 100 / n) =
      List.replicate (100 % n) (100 / n + 1) := by
    rw [List.eq_replicate_iff]
    refine ⟨by simp, ?_⟩
    intro b hb
    simp only [List.mem_map] at hb
    obtain ⟨i, hi, hbi⟩ := hb
    rw [List.mem_range'_1] at hi
    rw [if_pos (by omega)] at hbi
    exact hbi.symm
  have h2 : (List.range' (100 % n) k).map (fun i =>
      if i < 100 % n then 100 / n + 1 else 100 / n) =
      List.replicate k (100 / n) := by
    rw [List.eq_replicate_iff]
    refine ⟨by simp, ?_⟩
    intro b hb
    simp only [List.mem_map] at hb
    obtain ⟨i, hi, hbi⟩ := hb
    rw [List.mem_range'_1] at hi
    rw [if_neg (by omega)] at hbi
    exact hbi.symm
  rw [h1, h2, List.sum_replicate, List.sum_replicate, smul_eq_mul,
    smul_eq_mul]
  have hcalc : 100 % n * (100 / n + 1) + k * (100 / n) =
      (100 % n + k) * (100 / n) + 100 % n := by ring
  rw [hcalc, ← hk, hq]

theorem calculate_balanced_weights_getElem (n i : Nat) (hn : 0 < n)
    (hi : i < (calculate_balanced_weights n).length) :
    (calculate_balanced_weights n)[i] =
      if i < 100 % n then 100 / n + 1 else 100 / n := by
  have hne : ¬ n = 0 := Nat.pos_iff_ne_zero.mp hn
  simp [calculate_balanced_weights, hne]

/-- Claim C2: for every `n` in `1..100`, `_calculate_balanced_weights n`
returns exactly `n` positive integers where, with `base = 100 / n` and
`remainder = 100 % n`, the first `remainder` positions hold `base + 1`
and the remaining positions hold `base`; the sum is exactly `100`;
moreover `allocate 7 = [15,15,14,14,14,14,14]` and `allocate 0 = []`. -/
theorem claim_C2_weight_allocator (n : Nat) (h1 : 1 ≤ n) (h100 : n ≤ 100) :
    (calculate_balanced_weights n).length = n ∧
    (∀ i (hi : i < (calculate_balanced_weights n).length),
      0 < (calculate_balanced_weights n)[i] ∧
      (calculate_balanced_weights n)[i] =
        if i < 100 % n then 100 / n + 1 else 100 / n) ∧
    (calculate_balanced_weights n).sum = 100 ∧
    calculate_balanced_weights 7 = [15, 15, 14, 14, 14, 14, 14] ∧
    calculate_balanced_weights 0 = [] := by
  refine ⟨calculate_balanced_weights_length n, ?_,
    calculate_balanced_weights_sum n h1, by decide, by decide⟩
  intro i hi
  have hval := calculate_balanced_weights_getElem n i h1 hi
  refine ⟨?_, hval⟩
  rw [hval]
  split
  · exact Nat.succ_pos _
  · exact (Nat.one_le_div_iff h1).mpr h100

/-- Witness for claim C2 at the concrete input `n = 7`. -/
theorem claim_C2_weight_allocator_witness :
    (calculate_balanced_weights 7).length = 7 ∧
    (calculate_balanced_weights 7).sum = 100 := by
  obtain ⟨hlen, _, hsum, _, _⟩ :=
    claim_C2_weight_allocator 7 (by decide) (by decide)
  exact ⟨hlen, hsum⟩

/-! ### TestSynthesizer: `TestGenerator` of `src/services/ai_generator.py`.

The suite dictionary `{"count": k, "1": {...}, ..., "k": {...}}` built by
the generator always has contiguous integer keys, so it is modelled as a
list of `GenTest` records ordered by id (the `count` key equals the list
length at every point of the generator).  `json.loads` and `re.findall`
are external collaborators: their outcome on the raw model response is an
oracle value (`StrictParse`, the match list), and the model call itself
may raise, so theorems below quantify over every such behaviour. -/

/-- One per-test dictionary as built by `TestGenerator`. -/
structure GenTest where
  id : Nat
  value : Nat
  input : LChar
  output : LChar
  explanation : LChar
  difficulty : Int
deriving DecidableEq, Repr, Inhabited

/-- One element of the JSON array parsed from the model response, after
the `test.get(field, default)` defaults of `_parse_response` have been
applied. -/
structure RawTest where
  input : LChar
  output : LChar
  explanation : LChar
  difficulty : Int
deriving DecidableEq, Repr, Inhabited

/-- The outcome of `json.loads` on the bracket-extracted region of the
model response, as observed by `_parse_response`: a decode error (fall
through to `_extract_tests_manually`), a parsed value on which building
the result raises (a non-sequence, or a sequence of non-dict elements:
the outer `except` returns the fallback), or a value that behaves as a
list of dict-like objects. -/
inductive StrictParse where
  | decodeError : StrictParse
  | buildError : StrictParse
  | objs : List RawTest → StrictParse
deriving DecidableEq, Repr

/-- The behaviour of one model invocation as observed by the generator:
either some step of steps 1-2 raises, or the response text is delivered,
characterised by its `json.loads` outcome and its `re.findall` match
list. -/
inductive ModelBehavior where
  | raiseExc : ModelBehavior
  | respond : StrictParse → List RawTest → ModelBehavior
deriving DecidableEq, Repr

/-- `TestGenerator._generate_fallback_tests`: `count` placeholder
entries with `base + extra` weights (`extra = 1` for the first
`100 % count` one-indexed positions). -/
def generate_fallback_tests (count : Nat) : List GenTest :=
  (List.range count).map fun i0 =>
    { id := i0 + 1,
      value := 100 / count + (if i0 + 1 ≤ 100 % count then 1 else 0),
      input := str "fallback_test_input_" ++ (Nat.repr (i0 + 1)).data,
      output := str "fallback_test_output_" ++ (Nat.repr (i0 + 1)).data,
      explanation := str "Fallback test case. The AI failed to generate tests. Please manually create tests.",
      difficulty := 3 }

/-- The successful branch of `_parse_response`: cap the parsed array to
`count` entries, assign ids `1..k` and `_calculate_balanced_weights k`
weights, `k = min (len test_cases) count`. -/
def strict_result (l : List RawTest) (count : Nat) : List GenTest :=
  let k := min l.length count
  let weights := calculate_balanced_weights k
  (List.range k).map fun i0 =>
    let t := l.getD i0 default
    { id := i0 + 1, value := weights.getD i0 0,
      input := t.input, output := t.output,
      explanation := t.explanation, difficulty := t.difficulty }

/-- `TestGenerator._extract_tests_manually`: regex found are accepted
up to `count`, with inline `base + extra` weights; no match at all
yields the fallback suite. -/
def extract_tests_manually (found : List RawTest) (count : Nat) :
    List GenTest :=
  if found.isEmpty then generate_fallback_tests count
  else
    let k := min found.length count
    (List.range k).map fun i0 =>
      let t := found.getD i0 default
      { id := i0 + 1,
        value := 100 / k + (if i0 + 1 ≤ 100 % k then 1 else 0),
        input := t.input, output := t.output,
        explanation := t.explanation, difficulty := t.difficulty }

/-- `TestGenerator._parse_response` over the parse oracle. -/
def parse_response (strict : StrictParse) (found : List RawTest)
    (count : Nat) : List GenTest :=
  match strict with
  | .objs l => strict_result l count
  | .decodeError => extract_tests_manually found count
  | .buildError => generate_fallback_tests count

/-- The literal suffix marker `"\n# Modified version "` used by
`_ensure_test_count` to disambiguate cloned inputs. -/
def marker : LChar := str "\n# Modified version "

/-- One iteration of the padding loop of `_ensure_test_count` at index
`i`: clone entry `(i - cc - 1) % cc + 1`, mutate the cloned input when
it is literally present in `existing_inputs`, and append the new entry
and its input. -/
def pad_step (cc : Nat) (weights : List Nat) (i : Nat)
    (st : List GenTest × List LChar) : List GenTest × List LChar :=
  let acc := st.1
  let ex := st.2
  let b0 := (i - cc - 1) % cc
  let base := acc.getD b0 default
  let inp := if base.input ∈ ex
    then base.input ++ marker ++ (Nat.repr i).data
    else base.input
  (acc ++ [{ id := i, value := weights.getD (i - 1) 0, input := inp,
             output := base.output,
             explanation := str "Additional test based on test " ++
               (Nat.repr (b0 + 1)).data,
             difficulty := base.difficulty }],
   ex ++ [inp])

/-- The padding loop of `_ensure_test_count`, over the list of new
indices `current_count + 1 .. requested_count`. -/
def pad_loop (cc : Nat) (weights : List Nat) :
    List Nat → List GenTest × List LChar → List GenTest × List LChar
  | [], st => st
  | i :: is, st => pad_loop cc weights is (pad_step cc weights i st)

/-- `TestGenerator._ensure_test_count`.  When the suite is empty but
entries are requested, the Python loop body evaluates
`(i - current_count - 1) % current_count` with `current_count = 0` and
raises `ZeroDivisionError`; this is the `.error` case. -/
def ensure_test_count (tests : List GenTest) (requested : Nat) :
    Except Unit (List GenTest) :=
  let cc := tests.length
  if requested ≤ cc then .ok tests
  else if cc = 0 then .error ()
  else
    let weights := calculate_balanced_weights requested
    let reweighted := (List.range cc).map fun i0 =>
      { tests.getD i0 default with value := weights.getD i0 0 }
    let ex0 := reweighted.map (·.input)
    (Except.ok
      (pad_loop cc weights (List.range' (cc + 1) (requested - cc))
        (reweighted, ex0)).1)

/-- The clamp `count = min(max(1, count), MAX_TEST_COUNT)` applied by
`generate_tests`. -/
def clampCount (count0 : Int) : Nat := (min (max 1 count0) MAX_TEST_COUNT).toNat

/-- `TestGenerator.generate_tests`: clamp the requested count, consult
the model, parse, top up short suites, and fall back to synthetic tests
on any exception (including the `ZeroDivisionError` of
`_ensure_test_count` on an empty parsed suite). -/
def generate_tests (behavior : ModelBehavior) (count0 : Int) :
    List GenTest :=
  let count := clampCount count0
  match behavior with
  | .raiseExc => generate_fallback_tests count
  | .respond strict found =>
      let tests := parse_response strict found count
      if tests.length < count then
        match ensure_test_count tests count with
        | .ok t => t
        | .error _ => generate_fallback_tests count
      else tests

/-! ### Facts about the generator pipeline, leading to claim C1. -/

theorem map_getD_of_length (w : List Nat) (n : Nat) (h : w.length = n) :
    (List.range n).map (fun i => w.getD i 0) = w := by
  apply List.ext_getElem
  · simp [h]
  · intro i h1 h2
    simp only [List.getElem_map, List.getElem_range]
    exact List.getD_eq_getElem w 0 h2

theorem generate_fallback_tests_length (n : Nat) :
    (generate_fallback_tests n).length = n := by
  simp [generate_fallback_tests]

theorem generate_fallback_tests_ids (n : Nat) :
    (generate_fallback_tests n).map (·.id) = List.range' 1 n := by
  rw [generate_fallback_tests, List.map_map, List.range'_eq_map_range]
  apply List.map_congr_left
  intro i _
  show i + 1 = 1 + i
  omega

theorem generate_fallback_tests_values (n : Nat) :
    (generate_fallback_tests n).map (·.value) =
      calculate_balanced_weights n := by
  apply List.ext_getElem
  · simp [generate_fallback_tests, calculate_balanced_weights_length]
  · intro i h1 h2
    have hn : 0 < n := by
      rw [calculate_balanced_weights_length] at h2
      omega
    rw [calculate_balanced_weights_getElem n i hn h2]
    simp only [generate_fallback_tests, List.getElem_map,
      List.getElem_range]
    by_cases hc : i < 100 % n
    · rw [if_pos hc, if_pos (Nat.succ_le_of_lt hc)]
    · rw [if_neg hc,
        if_neg (fun hcon => hc (Nat.lt_of_succ_le hcon))]
      omega

theorem strict_result_length (l : List RawTest) (count : Nat) :
    (strict_result l count).length = min l.length count := by
  simp [strict_result]

theorem strict_result_ids (l : List RawTest) (count : Nat) :
    (strict_result l count).map (·.id) =
      List.range' 1 (min l.length count) := by
  rw [strict_result, List.map_map, List.range'_eq_map_range]
  apply List.map_congr_left
  intro i _
  show i + 1 = 1 + i
  omega

theorem strict_result_values (l : List RawTest) (count : Nat) :
    (strict_result l count).map (·.value) =
      calculate_balanced_weights (min l.length count) := by
  rw [strict_result, List.map_map]
  have : ((fun t : GenTest => t.value) ∘ fun i0 =>
      let t := l.getD i0 default
      ({ id := i0 + 1,
         value := (calculate_balanced_weights (min l.length count)).getD i0 0,
         input := t.input, output := t.output,
         explanation := t.explanation,
         difficulty := t.difficulty } : GenTest)) = fun i0 =>
      (calculate_balanced_weights (min l.length count)).getD i0 0 := rfl
  rw [this]
  exact map_getD_of_length _ _ (calculate_balanced_weights_length _)

theorem extract_tests_manually_length (found : List RawTest) (count : Nat)
    (_hc : 0 < count) :
    (extract_tests_manually found count).length =
      if found.isEmpty then count else min found.length count := by
  unfold extract_tests_manually
  split
  · rw [generate_fallback_tests_length]
  · simp

theorem extract_tests_manually_ids (found : List RawTest) (count : Nat) :
    (extract_tests_manually found count).map (·.id) =
      List.range' 1 (extract_tests_manually found count).length := by
  unfold extract_tests_manually
  split
  · rw [generate_fallback_tests_ids, generate_fallback_tests_length]
  · simp only [List.length_map, List.length_range]
    rw [List.map_map, List.range'_eq_map_range]
    apply List.map_congr_left
    intro i _
    show i + 1 = 1 + i
    omega

theorem extract_tests_manually_values (found : List RawTest) (count : Nat) :
    (extract_tests_manually found count).map (·.value) =
      calculate_balanced_weights
        (extract_tests_manually found count).length := by
  unfold extract_tests_manually
  split
  · rw [generate_fallback_tests_values, generate_fallback_tests_length]
  · simp only [List.length_map, List.length_range]
    apply List.ext_getElem
    · simp [calculate_balanced_weights_length]
    · intro i h1 h2
      have hn : 0 < min found.length count := by
        rw [calculate_balanced_weights_length] at h2
        omega
      rw [calculate_balanced_weights_getElem _ i hn h2]
      simp only [List.getElem_map, List.getElem_range]
      by_cases hc : i < 100 % min found.length count
      · rw [if_pos hc, if_pos (Nat.succ_le_of_lt hc)]
      · rw [if_neg hc,
          if_neg (fun hcon => hc (Nat.lt_of_succ_le hcon))]
        omega

/-- The suites produced by `_parse_response` (before topping up) always
carry ids `1..k` and balanced weights for their own length `k ≤ count`. -/
theorem parse_response_spec (strict : StrictParse) (found : List RawTest)
    (count : Nat) (hc : 0 < count) :
    (parse_response strict found count).map (·.id) =
      List.range' 1 (parse_response strict found count).length ∧
    (parse_response strict found count).map (·.value) =
      calculate_balanced_weights (parse_response strict found count).length ∧
    (parse_response strict found count).length ≤ count := by
  cases strict with
  | objs l =>
    refine ⟨?_, ?_, ?_⟩
    · rw [parse_response, strict_result_ids, strict_result_length]
    · rw [parse_response, strict_result_values, strict_result_length]
    · rw [parse_response, strict_result_length]
      omega
  | decodeError =>
    refine ⟨extract_tests_manually_ids found count,
      extract_tests_manually_values found count, ?_⟩
    rw [parse_response, extract_tests_manually_length found count hc]
    split
    · exact Nat.le_refl count
    · omega
  | buildError =>
    refine ⟨?_, ?_, ?_⟩
    · rw [parse_response, generate_fallback_tests_ids,
        generate_fallback_tests_length]
    · rw [parse_response, generate_fallback_tests_values,
        generate_fallback_tests_length]
    · rw [parse_response, generate_fallback_tests_length]

theorem pad_loop_fst_map_id (cc : Nat) (weights : List Nat)
    (is : List Nat) (st : List GenTest × List LChar) :
    ((pad_loop cc weights is st).1).map (·.id) =
      st.1.map (·.id) ++ is := by
  induction is generalizing st with
  | nil => simp [pad_loop]
  | cons i is ih =>
    simp only [pad_loop]
    rw [ih]
    show (pad_step cc weights i st).1.map (·.id) ++ is =
      st.1.map (·.id) ++ i :: is
    simp [pad_step]

theorem pad_loop_fst_map_value (cc : Nat) (weights : List Nat)
    (is : List Nat) (st : List GenTest × List LChar) :
    ((pad_loop cc weights is st).1).map (·.value) =
      st.1.map (·.value) ++ is.map (fun i => weights.getD (i - 1) 0) := by
  induction is generalizing st with
  | nil => simp [pad_loop]
  | cons i is ih =>
    simp only [pad_loop]
    rw [ih]
    show (pad_step cc weights i st).1.map (·.value) ++ _ =
      st.1.map (·.value) ++ _
    simp [pad_step]

theorem pad_loop_length (cc : Nat) (weights : List Nat)
    (is : List Nat) (st : List GenTest × List LChar) :
    (pad_loop cc weights is st).1.length = st.1.length + is.length := by
  induction is generalizing st with
  | nil => simp [pad_loop]
  | cons i is ih =>
    simp only [pad_loop]
    rw [ih]
    show (pad_step cc weights i st).1.length + is.length = _
    simp [pad_step]
    omega

theorem getD_split (w : List Nat) (cc k : Nat) (h : w.length = cc + k) :
    (List.range cc).map (fun i => w.getD i 0) ++
      (List.range' (cc + 1) k).map (fun i => w.getD (i - 1) 0) = w := by
  have h2 : (List.range' (cc + 1) k).map (fun i => w.getD (i - 1) 0)
      = (List.range' cc k).map (fun i => w.getD i 0) := by
    rw [List.range'_eq_map_range, List.range'_eq_map_range,
      List.map_map, List.map_map]
    apply List.map_congr_left
    intro i _
    show w.getD (cc + 1 + i - 1) 0 = w.getD (cc + i) 0
    congr 1
    omega
  rw [h2]
  conv_lhs =>
    rw [List.range_eq_range', ← List.map_append]
  have happ := List.range'_append 0 cc k 1
  simp only [Nat.one_mul, Nat.zero_add] at happ
  rw [happ, Nat.add_comm k cc, ← List.range_eq_range']
  exact map_getD_of_length w (cc + k) h

/-- `_ensure_test_count` on a nonempty short suite: it succeeds, tops
the suite up to `requested` entries, keeps the existing ids and appends
`cc+1..requested`, and re-weights everything with
`_calculate_balanced_weights requested`. -/
theorem ensure_test_count_spec (tests : List GenTest) (rc : Nat)
    (hlt : tests.length < rc) (hcc : tests.length ≠ 0) :
    ∃ res, ensure_test_count tests rc = Except.ok res ∧
      res.length = rc ∧
      res.map (·.id) = tests.map (·.id) ++
        List.range' (tests.length + 1) (rc - tests.length) ∧
      res.map (·.value) = calculate_balanced_weights rc := by
  have hnotle : ¬ rc ≤ tests.length := by omega
  have hrw : ((List.range tests.length).map fun i0 =>
      ({ tests.getD i0 default with
          value := (calculate_balanced_weights rc).getD i0 0 } :
        GenTest)).map (·.id) = tests.map (·.id) := by
    rw [List.map_map]
    apply List.ext_getElem
    · simp
    · intro i h1 h2
      simp only [List.getElem_map, List.getElem_range,
        Function.comp_apply]
      rw [List.getD_eq_getElem tests default (by simpa using h2)]
  have hrwv : ((List.range tests.length).map fun i0 =>
      ({ tests.getD i0 default with
          value := (calculate_balanced_weights rc).getD i0 0 } :
        GenTest)).map (·.value) =
      (List.range tests.length).map
        (fun i0 => (calculate_balanced_weights rc).getD i0 0) := by
    rw [List.map_map]
    rfl
  obtain ⟨res, hres⟩ : ∃ r, ensure_test_count tests rc = Except.ok r := by
    unfold ensure_test_count
    rw [if_neg hnotle, if_neg hcc]
    exact ⟨_, rfl⟩
  have hres2 := hres
  unfold ensure_test_count at hres2
  rw [if_neg hnotle, if_neg hcc] at hres2
  injection hres2 with hbig
  subst hbig
  refine ⟨_, hres, ?_, ?_, ?_⟩
  · rw [pad_loop_length]
    simp only [List.length_map, List.length_range, List.length_range']
    omega
  · rw [pad_loop_fst_map_id]
    rw [hrw]
  · rw [pad_loop_fst_map_value]
    rw [hrwv]
    exact getD_split _ _ _
      (by rw [calculate_balanced_weights_length]; omega)

/-- Claim C1: for every model behaviour (malformed text, non-JSON text,
an empty array, fewer entries than requested, or an exception from the
model call) and every integer requested count, `generate_tests` returns
a suite whose length equals the requested count clamped into
`[1, MAX_TEST_COUNT] = [1, 30]`, whose ids are exactly `1..count`, and
whose weights sum to exactly `100`. -/
theorem claim_C1_generate_always_wellformed (b : ModelBehavior)
    (c0 : Int) :
    (generate_tests b c0).length = clampCount c0 ∧
    (generate_tests b c0).map (·.id) = List.range' 1 (clampCount c0) ∧
    ((generate_tests b c0).map (·.value)).sum = 100 ∧
    clampCount c0 = (min (max 1 c0) 30).toNat ∧
    1 ≤ clampCount c0 ∧ clampCount c0 ≤ 30 := by
  have hc : 1 ≤ clampCount c0 ∧ clampCount c0 ≤ 30 := by
    unfold clampCount MAX_TEST_COUNT
    omega
  have hfall : (generate_fallback_tests (clampCount c0)).length =
        clampCount c0 ∧
      (generate_fallback_tests (clampCount c0)).map (·.id) =
        List.range' 1 (clampCount c0) ∧
      ((generate_fallback_tests (clampCount c0)).map (·.value)).sum =
        100 := by
    refine ⟨generate_fallback_tests_length _,
      generate_fallback_tests_ids _, ?_⟩
    rw [generate_fallback_tests_values,
      calculate_balanced_weights_sum _ (by omega)]
  cases b with
  | raiseExc =>
    simp only [generate_tests]
    exact ⟨hfall.1, hfall.2.1, hfall.2.2, rfl, hc.1, hc.2⟩
  | respond strict found =>
    simp only [generate_tests]
    obtain ⟨hids, hvals, hlen⟩ :=
      parse_response_spec strict found (clampCount c0) (by omega)
    by_cases hshort : (parse_response strict found (clampCount c0)).length
        < clampCount c0
    · rw [if_pos hshort]
      by_cases hzero :
          (parse_response strict found (clampCount c0)).length = 0
      · have herr : ensure_test_count
            (parse_response strict found (clampCount c0))
            (clampCount c0) = Except.error () := by
          unfold ensure_test_count
          rw [if_neg (by omega), if_pos hzero]
        rw [herr]
        exact ⟨hfall.1, hfall.2.1, hfall.2.2, rfl, hc.1, hc.2⟩
      · obtain ⟨res, hok, hrlen, hrids, hrvals⟩ := ensure_test_count_spec
          (parse_response strict found (clampCount c0)) (clampCount c0)
          hshort hzero
        rw [hok]
        refine ⟨hrlen, ?_, ?_, rfl, hc.1, hc.2⟩
        · rw [hrids, hids]
          have happ := List.range'_append 1
            (parse_response strict found (clampCount c0)).length
            (clampCount c0 -
              (parse_response strict found (clampCount c0)).length) 1
          simp only [Nat.one_mul] at happ
          rw [Nat.add_comm 1
            (parse_response strict found (clampCount c0)).length] at happ
          rw [happ]
          congr 1
          omega
        · rw [hrvals, calculate_balanced_weights_sum _ (by omega)]
    · rw [if_neg hshort]
      have heq : (parse_response strict found (clampCount c0)).length =
          clampCount c0 := by omega
      refine ⟨heq, ?_, ?_, rfl, hc.1, hc.2⟩
      · rw [hids, heq]
      · rw [hvals, heq, calculate_balanced_weights_sum _ (by omega)]

/-! ### Claim C7: inputs introduced by the padding step.

The padding loop checks the *unmutated* cloned input against
`existing_inputs` and, on collision, appends
`"\n# Modified version {i}"` — but never re-checks the mutated text.
The counterexample below exhibits a resulting duplicate; the amended
theorem shows the intended invariant does hold whenever no input already
present contains the marker text as a substring. -/

theorem marker_length_eq : marker.length = 20 := by decide

theorem marker_head_newline : marker.getD 0 'a' = '\n' := by decide

theorem marker_tail_no_newline :
    ∀ k < 20, 0 < k → marker.getD k 'a' ≠ '\n' := by decide

theorem repr_data_no_newline : ∀ i < 31, '\n' ∉ (Nat.repr i).data := by
  decide

theorem repr_data_inj :
    ∀ i < 31, ∀ j < 31, (Nat.repr i).data = (Nat.repr j).data → i = j := by
  decide

/-- If `marker ++ d` also decomposes as `t ++ marker ++ d'` and `d` has
no newline, the offset `t` must be empty: the only occurrence of the
marker's leading newline is at position `0`. -/
theorem marker_chunk_nil (t d d' : LChar) (hd : '\n' ∉ d)
    (h : marker ++ d = t ++ (marker ++ d')) : t = [] := by
  by_cases h0 : t.length = 0
  · exact List.eq_nil_of_length_eq_zero h0
  exfalso
  have hlen := congrArg List.length h
  simp only [List.length_append] at hlen
  have h20 : marker.length = 20 := marker_length_eq
  have htl : t.length ≤ d.length := by omega
  have hn : t.length < (marker ++ d).length := by
    simp only [List.length_append]
    omega
  have hn2 : t.length < (t ++ (marker ++ d')).length := by
    simp only [List.length_append]
    omega
  have hval : (t ++ (marker ++ d'))[t.length] = '\n' := by
    rw [List.getElem_append_right (Nat.le_refl t.length)]
    have hz : t.length - t.length < marker.length := by omega
    have hz2 : t.length - t.length < (marker ++ d').length := by
      simp only [List.length_append]
      omega
    have hstep : (marker ++ d')[t.length - t.length] =
        marker[t.length - t.length] :=
      List.getElem_append_left hz
    rw [hstep]
    rw [← List.getD_eq_getElem marker 'a' hz]
    simp only [Nat.sub_self]
    exact marker_head_newline
  have hval2 : (marker ++ d)[t.length] = '\n' :=
    (List.getElem_of_eq h hn).trans hval
  by_cases hsmall : t.length < marker.length
  · have heq : (marker ++ d)[t.length] = marker[t.length] :=
      List.getElem_append_left hsmall
    have hne := marker_tail_no_newline t.length (by omega) (by omega)
    rw [List.getD_eq_getElem marker 'a' hsmall] at hne
    exact hne (heq.symm.trans hval2)
  · have hge : marker.length ≤ t.length := by omega
    have hdlt : t.length - marker.length < d.length := by omega
    have heq : (marker ++ d)[t.length] =
        d[t.length - marker.length] :=
      List.getElem_append_right hge
    apply hd
    rw [← heq.symm.trans hval2]
    exact List.getElem_mem hdlt

/-- Two marker-mutated strings are equal only when base and digit
suffix agree (the digit strings carry no newline). -/
theorem append_marker_inj (b b' d d' : LChar)
    (hd : '\n' ∉ d) (hd' : '\n' ∉ d')
    (h : b ++ (marker ++ d) = b' ++ (marker ++ d')) :
    b = b' ∧ d = d' := by
  rw [List.append_eq_append_iff] at h
  rcases h with ⟨t, h1, h2⟩ | ⟨t, h1, h2⟩
  · have ht := marker_chunk_nil t d d' hd h2
    subst ht
    rw [List.append_nil] at h1
    rw [List.nil_append] at h2
    exact ⟨h1.symm, List.append_cancel_left h2⟩
  · have ht := marker_chunk_nil t d' d hd' h2
    subst ht
    rw [List.append_nil] at h1
    rw [List.nil_append] at h2
    exact ⟨h1, (List.append_cancel_left h2).symm⟩

/-- A string of the shape produced by mutating a cloned input at clone
index `j` (with `cc < j < bound`, indices bounded by MAX_TEST_COUNT). -/
def MutClone (cc bound : Nat) (x : LChar) : Prop :=
  ∃ b j, cc < j ∧ j < bound ∧ j ≤ 30 ∧
    x = b ++ (marker ++ (Nat.repr j).data)

/-- Invariant of the padding loop: `existing_inputs` mirrors the suite
inputs, the first `cc` (original) entries are marker-free, and every
input so far is either marker-free or a mutated clone from an index
below `bound`. -/
def PadInv (cc bound : Nat) (acc : List GenTest) (ex : List LChar) :
    Prop :=
  ex = acc.map (·.input) ∧
  cc ≤ acc.length ∧
  (∀ b0, b0 < cc → ¬ marker <:+: (acc.getD b0 default).input) ∧
  (∀ x ∈ ex, (¬ marker <:+: x) ∨ MutClone cc bound x)

/-- No entry at a padded position (`≥ cc`) repeats the input of any
earlier entry of the suite. -/
def NoNewDup (cc : Nat) (acc : List GenTest) : Prop :=
  ∀ j, cc ≤ j → ∀ (hj : j < acc.length),
    acc[j].input ∉ (acc.take j).map (·.input)

/-- The clone source entry of padding index `i`. -/
def padBase (cc i : Nat) (acc : List GenTest) : GenTest :=
  acc.getD ((i - cc - 1) % cc) default

/-- The input text of the padded entry at index `i` (mutated on literal
collision). -/
def padInput (cc i : Nat) (acc : List GenTest) (ex : List LChar) :
    LChar :=
  if (padBase cc i acc).input ∈ ex
  then (padBase cc i acc).input ++ marker ++ (Nat.repr i).data
  else (padBase cc i acc).input

/-- The full padded entry at index `i`. -/
def padEntry (cc : Nat) (w : List Nat) (i : Nat) (acc : List GenTest)
    (ex : List LChar) : GenTest :=
  { id := i, value := w.getD (i - 1) 0,
    input := padInput cc i acc ex,
    output := (padBase cc i acc).output,
    explanation := str "Additional test based on test " ++
      (Nat.repr ((i - cc - 1) % cc + 1)).data,
    difficulty := (padBase cc i acc).difficulty }

theorem pad_step_eq (cc : Nat) (w : List Nat) (i : Nat)
    (acc : List GenTest) (ex : List LChar) :
    pad_step cc w i (acc, ex) =
      (acc ++ [padEntry cc w i acc ex], ex ++ [padInput cc i acc ex]) := by
  rw [pad_step, padEntry, padInput, padBase]

/-- Under the invariant, the input text appended by the padding step at
index `i` does not occur among the existing inputs. -/
theorem padInput_not_mem (cc i : Nat) (acc : List GenTest)
    (ex : List LChar) (bound : Nat) (_hcc : 0 < cc) (_hbound : cc < bound)
    (hbi : bound ≤ i) (hi30 : i ≤ 30)
    (hinv : PadInv cc bound acc ex) :
    padInput cc i acc ex ∉ ex := by
  obtain ⟨hex, hlen, hbase, hall⟩ := hinv
  rw [padInput]
  split
  case isTrue hmem =>
    intro hcon
    rcases hall _ hcon with hfree2 | ⟨b', j, hccj, hjb, hj30, hx⟩
    · exact hfree2 ⟨(padBase cc i acc).input, (Nat.repr i).data,
        by rw [List.append_assoc]⟩
    · rw [List.append_assoc] at hx
      obtain ⟨-, hdeq⟩ := append_marker_inj (padBase cc i acc).input b'
        (Nat.repr i).data (Nat.repr j).data
        (repr_data_no_newline i (by omega))
        (repr_data_no_newline j (by omega)) hx
      have hij : i = j := repr_data_inj i (by omega) j (by omega) hdeq
      omega
  case isFalse hmem => exact hmem

/-- The padding step preserves the loop invariant, with the clone-index
bound advanced past `i`. -/
theorem pad_extend_inv (cc : Nat) (w : List Nat) (i : Nat)
    (acc : List GenTest) (ex : List LChar) (bound : Nat)
    (hcc : 0 < cc) (hbound : cc < bound) (hbi : bound ≤ i)
    (hi30 : i ≤ 30) (hinv : PadInv cc bound acc ex) :
    PadInv cc (i + 1) (acc ++ [padEntry cc w i acc ex])
      (ex ++ [padInput cc i acc ex]) := by
  obtain ⟨hex, hlen, hbase, hall⟩ := hinv
  refine ⟨?_, ?_, ?_, ?_⟩
  · rw [List.map_append, ← hex]
    rfl
  · rw [List.length_append]
    omega
  · intro b0 hb0
    rw [List.getD_append _ _ _ _ (by omega)]
    exact hbase b0 hb0
  · intro x hx
    rcases List.mem_append.mp hx with hx | hx
    · rcases hall x hx with hfree | ⟨b', j, h1, h2, h3, h4⟩
      · exact Or.inl hfree
      · exact Or.inr ⟨b', j, h1, by omega, h3, h4⟩
    · rw [List.mem_singleton] at hx
      subst hx
      rw [padInput]
      split
      · exact Or.inr ⟨(padBase cc i acc).input, i, by omega, by omega,
          hi30, by rw [List.append_assoc]⟩
      · exact Or.inl (hbase _ (Nat.mod_lt _ hcc))

/-- Appending an entry whose input is fresh preserves the
no-new-duplicate property. -/
theorem pad_extend_nodup (cc : Nat) (w : List Nat) (i : Nat)
    (acc : List GenTest) (ex : List LChar)
    (hex : ex = acc.map (·.input))
    (hnot : padInput cc i acc ex ∉ ex)
    (hdup : NoNewDup cc acc) :
    NoNewDup cc (acc ++ [padEntry cc w i acc ex]) := by
  intro j hj hjlen
  rw [List.length_append, List.length_singleton] at hjlen
  by_cases hjl : j < acc.length
  · have htake : (acc ++ [padEntry cc w i acc ex]).take j = acc.take j :=
      List.take_append_of_le_length (by omega)
    rw [htake]
    have h1 : (acc ++ [padEntry cc w i acc ex])[j] = acc[j] :=
      List.getElem_append_left hjl
    rw [h1]
    exact hdup j hj hjl
  · have hje : j = acc.length := by omega
    subst hje
    have htake : (acc ++ [padEntry cc w i acc ex]).take acc.length =
        acc := List.take_left acc _
    rw [htake, ← hex]
    have h1 : (acc ++ [padEntry cc w i acc ex])[acc.length] =
        padEntry cc w i acc ex := by
      rw [List.getElem_append_right (Nat.le_refl acc.length)]
      simp
    rw [h1]
    exact hnot

/-- Running the padding loop over strictly increasing indices that all
dominate the invariant's bound never creates a duplicated input at a
padded position. -/
theorem pad_loop_no_dup (cc : Nat) (w : List Nat) (is : List Nat)
    (acc : List GenTest) (ex : List LChar) (bound : Nat)
    (hcc : 0 < cc) (hbound : cc < bound)
    (hlo : ∀ x ∈ is, bound ≤ x) (hhi : ∀ x ∈ is, x ≤ 30)
    (hpw : is.Pairwise (· < ·))
    (hinv : PadInv cc bound acc ex) (hdup : NoNewDup cc acc) :
    NoNewDup cc (pad_loop cc w is (acc, ex)).1 := by
  induction is generalizing acc ex bound with
  | nil => simpa [pad_loop] using hdup
  | cons i is ih =>
    simp only [pad_loop]
    rw [pad_step_eq]
    have hmemi := List.mem_cons_self i is
    have hbi := hlo i hmemi
    have hinv' := pad_extend_inv cc w i acc ex bound hcc hbound
      (hlo i hmemi) (hhi i hmemi) hinv
    have hnot := padInput_not_mem cc i acc ex bound hcc hbound
      (hlo i hmemi) (hhi i hmemi) hinv
    have hdup' := pad_extend_nodup cc w i acc ex hinv.1 hnot hdup
    obtain ⟨hhead, htail⟩ := List.pairwise_cons.mp hpw
    exact ih _ _ (i + 1) (by omega)
      (fun x hx => by have := hhead x hx; omega)
      (fun x hx => hhi x (List.mem_cons_of_mem i hx))
      htail hinv' hdup'

/-- A partial suite (as produced by a parse of a model response) whose
second input already carries the disambiguating suffix that the padding
loop will generate for index 3. -/
def c7Bad : List GenTest :=
  [{ id := 1, value := 50, input := str "a", output := str "b",
     explanation := [], difficulty := 3 },
   { id := 2, value := 50, input := str "a\n# Modified version 3",
     output := str "b", explanation := [], difficulty := 3 }]

/-- The suite `_ensure_test_count c7Bad 3` actually returns. -/
def c7BadRes : List GenTest :=
  [{ id := 1, value := 34, input := str "a", output := str "b",
     explanation := [], difficulty := 3 },
   { id := 2, value := 33, input := str "a\n# Modified version 3",
     output := str "b", explanation := [], difficulty := 3 },
   { id := 3, value := 33, input := str "a\n# Modified version 3",
     output := str "b",
     explanation := str "Additional test based on test 1",
     difficulty := 3 }]

/-- Counterexample to claim C7 as stated: padding the two-entry suite
`c7Bad` up to 3 entries introduces a new entry (position 2, id 3) whose
literal input text equals the input of entry 2, which was already
present in the suite — the mutated clone text is never re-checked
against `existing_inputs`. -/
theorem claim_C7_counterexample :
    ensure_test_count c7Bad 3 = Except.ok c7BadRes ∧
    c7Bad.length = 2 ∧ c7BadRes.length = 3 ∧
    c7BadRes[2].input = c7BadRes[1].input ∧
    c7BadRes[1].input = c7Bad[1].input := by
  refine ⟨?_, rfl, rfl, rfl, rfl⟩
  rfl

/-- Claim C7 (amended): if no input already present in the partial
suite contains the marker text `"\n# Modified version "` as a
substring, then for a `TestSynthesizer` request (`requested ≤
MAX_TEST_COUNT = 30`) the padding performed by `_ensure_test_count`
never introduces an entry whose literal input equals the input of any
entry earlier in the suite (`NoNewDup`). -/
theorem claim_C7_amended_padding_no_dup (tests : List GenTest)
    (rc : Nat) (hrc : rc ≤ 30)
    (hfree : ∀ t ∈ tests, ¬ marker <:+: t.input)
    (res : List GenTest)
    (hok : ensure_test_count tests rc = Except.ok res) :
    NoNewDup tests.length res := by
  unfold ensure_test_count at hok
  by_cases hle : rc ≤ tests.length
  · rw [if_pos hle] at hok
    injection hok with h
    subst h
    intro j hj hjlen
    omega
  · rw [if_neg hle] at hok
    by_cases hcc : tests.length = 0
    · rw [if_pos hcc] at hok
      exact absurd hok (by simp)
    · rw [if_neg hcc] at hok
      injection hok with h
      subst h
      have hfree2 : ∀ b0, b0 < tests.length →
          ¬ marker <:+: (((List.range tests.length).map fun i0 =>
            ({ tests.getD i0 default with
                value := (calculate_balanced_weights rc).getD i0 0 } :
              GenTest)).getD b0 default).input := by
        intro b0 hb0
        have hb : ((List.range tests.length).map fun i0 =>
            ({ tests.getD i0 default with
                value := (calculate_balanced_weights rc).getD i0 0 } :
              GenTest)).getD b0 default =
            { tests.getD b0 default with
                value := (calculate_balanced_weights rc).getD b0 0 } := by
          rw [List.getD_eq_getElem _ _ (by simpa using hb0)]
          simp
        rw [hb]
        have hmem : tests.getD b0 default ∈ tests := by
          rw [List.getD_eq_getElem _ _ hb0]
          exact List.getElem_mem hb0
        show ¬ marker <:+: (tests.getD b0 default).input
        exact hfree _ hmem
      apply pad_loop_no_dup tests.length (calculate_balanced_weights rc)
        (List.range' (tests.length + 1) (rc - tests.length)) _ _
        (tests.length + 1) (by omega) (by omega)
      · intro x hx
        rw [List.mem_range'_1] at hx
        omega
      · intro x hx
        rw [List.mem_range'_1] at hx
        omega
      · exact List.pairwise_lt_range' _ _
      · refine ⟨rfl, by simp, hfree2, ?_⟩
        intro x hx
        left
        rw [List.mem_map] at hx
        obtain ⟨t, ht, hxt⟩ := hx
        obtain ⟨i0, hi0, hf⟩ := List.mem_map.mp ht
        rw [List.mem_range] at hi0
        rw [← hxt, ← hf]
        have hmem : tests.getD i0 default ∈ tests := by
          rw [List.getD_eq_getElem _ _ hi0]
          exact List.getElem_mem hi0
        show ¬ marker <:+: (tests.getD i0 default).input
        exact hfree _ hmem
      · intro j hj hjlen
        simp only [List.length_map, List.length_range] at hjlen
        omega

/-- A clean one-entry partial suite (no marker text in any input). -/
def c7Good : List GenTest :=
  [{ id := 1, value := 100, input := str "a", output := str "b",
     explanation := [], difficulty := 3 }]

/-- The suite `_ensure_test_count c7Good 2` returns. -/
def c7GoodRes : List GenTest :=
  [{ id := 1, value := 50, input := str "a", output := str "b",
     explanation := [], difficulty := 3 },
   { id := 2, value := 50, input := str "a\n# Modified version 2",
     output := str "b",
     explanation := str "Additional test based on test 1",
     difficulty := 3 }]

/-- Witness for the amended claim C7 at the concrete one-entry suite
`c7Good` padded up to two entries. -/
theorem claim_C7_amended_padding_no_dup_witness :
    NoNewDup c7Good.length c7GoodRes :=
  claim_C7_amended_padding_no_dup c7Good 2 (by decide) (by decide)
    c7GoodRes (by rfl)

/-! ### GradingEngine: `CodeRunner` / `CompilerService` of
`src/services/code_runner.py` and `src/services/compiler.py`.

`run_tests` builds its report with `'tests': tests.copy()` — a shallow
copy: the per-test dictionaries are shared heap objects, so outcome
writes go into the caller's objects.  The model makes this explicit: a
`TestsDict` maps ids to references into a `Heap` of `PyTest` objects,
and `run_tests` returns the report together with the final heap and the
list of ids actually executed (one entry per `run_code` call).  The
Docker build and each sandbox invocation are external collaborators,
abstracted as oracle values; grades are computed in exact rational
arithmetic (`value * max_grade / 100` and `round(·, 2)` with Python's
round-half-to-even). -/

/-- References to the mutable per-test dictionary objects. -/
abbrev Ref := Nat

/-- The `status` strings written by `run_tests`. -/
inductive TStatus where
  | success : TStatus
  | failed : TStatus
deriving DecidableEq, Repr

/-- One per-test dictionary object: suite fields plus the outcome keys
(`run_output`, `status`, `error`) that are absent (`none`) until
`run_tests` writes them. -/
structure PyTest where
  id : Int
  value : Int
  input : LChar
  output : LChar
  explanation : LChar
  difficulty : Int
  run_output : Option LChar := none
  status : Option TStatus := none
  error : Option LChar := none
deriving DecidableEq, Repr, Inhabited

/-- The heap of per-test objects. -/
abbrev Heap := Ref → PyTest

/-- The tests dictionary passed to `run_tests`: the `count` key plus an
id-keyed association of references to test objects (a Python dict has
no duplicate keys; the `lookup` of an id returns its object). -/
structure TestsDict where
  count : Nat
  entries : List (Nat × Ref)
deriving DecidableEq, Repr

/-- `build_status` values of the report. -/
inductive BuildStatus where
  | success : BuildStatus
  | failed : BuildStatus
deriving DecidableEq, Repr

/-- The report built by `run_tests`: `tests` holds the same id-to-object
references as the caller's dictionary (shallow copy). -/
structure RunReport where
  build_status : BuildStatus
  build_message : LChar
  tests : TestsDict
  grade : ℚ
deriving DecidableEq, Repr

/-- Outcome of the staging plus Docker build for a supported language,
supplied by the environment: success with an artifact path and message,
or failure with a message (compile error, build timeout, missing
artifact, staging exception). -/
inductive CompileOutcome where
  | ok : LChar → LChar → CompileOutcome
  | fail : LChar → CompileOutcome
deriving DecidableEq, Repr

/-- The languages `CompilerService.compile_code` dispatches on. -/
def supportedLangs : List String := ["python", "c", "cpp", "java"]

/-- `CompilerService.compile_code`: unsupported languages fail with the
fixed message, supported ones behave as the build oracle says.
Returns `(success, executable_path, message)`. -/
def compile_code (language : String) (oracle : CompileOutcome) :
    Bool × Option LChar × LChar :=
  if language ∈ supportedLangs then
    match oracle with
    | .ok p m => (true, some p, m)
    | .fail m => (false, none, m)
  else (false, none, str "Unsupported programming language")

/-- Behaviour of one `run_code` call as determined by the environment:
an exception raised before/around the sandbox call (e.g. input staging),
`subprocess.TimeoutExpired`, or completion with exit code, stdout and
stderr. -/
inductive SubprocOutcome where
  | raiseExc : LChar → SubprocOutcome
  | timeoutExp : SubprocOutcome
  | finished : Int → LChar → LChar → SubprocOutcome
deriving DecidableEq, Repr

/-- The stdout size cap of `run_code`. -/
def truncateOutput (s : LChar) : LChar :=
  if MAX_OUTPUT_SIZE < s.length
  then s.take MAX_OUTPUT_SIZE ++
    str "\n...(output truncated due to size limit)"
  else s

/-- `CodeRunner.run_code` over the sandbox oracle, at the configured
`EXECUTION_TIMEOUT` (the timeout `run_tests` passes).  Returns
`(success, output, error_message)`. -/
def run_code (language : String) (outcome : SubprocOutcome) :
    Bool × LChar × Option LChar :=
  match outcome with
  | .raiseExc e => (false, [], some (str "Error running code: " ++ e))
  | .timeoutExp =>
      if language ∈ supportedLangs then
        (false, [], some (str "Execution timed out after " ++
          (Nat.repr EXECUTION_TIMEOUT).data ++ str " seconds"))
      else (false, [], some (str "Unsupported language: " ++ language.data))
  | .finished rc out err =>
      if language ∈ supportedLangs then
        let stdout := truncateOutput out
        if rc ≠ 0 then
          (false, stdout, some (str "Execution error: " ++ err))
        else (true, stdout, none)
      else (false, [], some (str "Unsupported language: " ++ language.data))

/-- The status `run_tests` records for test `i`: `success` iff the run
succeeded and the stripped actual output equals the stripped expected
output. -/
def stepStatus (lang : String) (execO : Nat → SubprocOutcome) (i : Nat)
    (expected : LChar) : TStatus :=
  if (run_code lang (execO i)).1 = true ∧
      pyStrip (run_code lang (execO i)).2.1 = pyStrip expected
  then TStatus.success else TStatus.failed

/-- The writes `run_tests` performs on the test object of id `i`:
`run_output` and `status` always, `error` only when `run_code` reported
one (otherwise any pre-existing `error` value is left in place). -/
def stepUpdate (lang : String) (execO : Nat → SubprocOutcome) (i : Nat)
    (t : PyTest) : PyTest :=
  { t with run_output := some (run_code lang (execO i)).2.1,
           status := some (stepStatus lang execO i t.output),
           error := match (run_code lang (execO i)).2.2 with
             | some e => some e
             | none => t.error }

/-- The `for i in range(1, tests['count'] + 1)` loop of `run_tests`:
ids absent from the dictionary are skipped (`continue`), present ones
are executed, their outcome written into their heap object, and their
weighted score added when they pass.  The third state component logs
the ids actually executed. -/
def runTestsLoop (lang : String) (execO : Nat → SubprocOutcome)
    (entries : List (Nat × Ref)) (mg : ℚ) :
    List Nat → Heap × ℚ × List Nat → Heap × ℚ × List Nat
  | [], st => st
  | i :: is, st =>
      match entries.lookup i with
      | none => runTestsLoop lang execO entries mg is st
      | some r =>
          let t := st.1 r
          let heap2 : Heap := fun ρ =>
            if ρ = r then stepUpdate lang execO i t else st.1 ρ
          let total2 := if stepStatus lang execO i t.output = .success
            then st.2.1 + (t.value : ℚ) * mg / 100 else st.2.1
          runTestsLoop lang execO entries mg is
            (heap2, total2, st.2.2 ++ [i])

/-- Python `round` to the nearest integer, ties to even. -/
def roundHalfEven (x : ℚ) : ℤ :=
  let f := ⌊x⌋
  if x - f < 1/2 then f
  else if 1/2 < x - f then f + 1
  else if f % 2 = 0 then f else f + 1

/-- Python `round(x, 2)` on exact decimals. -/
def round2 (x : ℚ) : ℚ := (roundHalfEven (x * 100) : ℚ) / 100

/-- `CodeRunner.run_tests`: compile once (report is terminal on
failure), then run every test id `1..count`, and round the accumulated
grade to two decimals.  Returns the report, the final heap, and the
log of executed ids. -/
def run_tests (lang : String) (compileO : CompileOutcome)
    (execO : Nat → SubprocOutcome) (tests : TestsDict) (heap : Heap)
    (max_grade : ℚ) : RunReport × Heap × List Nat :=
  let c := compile_code lang compileO
  if c.1 = true then
    let fin := runTestsLoop lang execO tests.entries max_grade
      (List.range' 1 tests.count) (heap, 0, [])
    ({ build_status := .success, build_message := c.2.2, tests := tests,
       grade := round2 fin.2.1 }, fin.1, fin.2.2)
  else
    ({ build_status := .failed, build_message := c.2.2, tests := tests,
       grade := 0 }, heap, [])

/-- The declarative per-test score: `weight/100 * maxGrade` for a
passing test, `0` for a failing or absent one (expected output and
weight read from the pre-run heap). -/
def contribution (lang : String) (execO : Nat → SubprocOutcome)
    (entries : List (Nat × Ref)) (heap : Heap) (mg : ℚ) (i : Nat) : ℚ :=
  match entries.lookup i with
  | some r => if stepStatus lang execO i ((heap r).output) = .success
      then ((heap r).value : ℚ) * mg / 100 else 0
  | none => 0

/-! ### Characterisation of the `run_tests` loop. -/

theorem lookup_mem_pairs {l : List (Nat × Ref)} {i : Nat} {r : Ref}
    (h : l.lookup i = some r) : (i, r) ∈ l := by
  induction l with
  | nil => simp [List.lookup] at h
  | cons p l ih =>
    obtain ⟨k, v⟩ := p
    simp only [List.lookup] at h
    by_cases hik : i = k
    · subst hik
      simp only [beq_self_eq_true] at h
      injection h with h
      subst h
      exact List.mem_cons_self _ _
    · rw [beq_eq_false_iff_ne.mpr hik] at h
      exact List.mem_cons_of_mem _ (ih h)

/-- Two ids resolving to the same object reference coincide when the
dictionary holds pairwise-distinct object references. -/
theorem lookup_ref_inj {entries : List (Nat × Ref)} {i j : Nat} {r : Ref}
    (hrefs : (entries.map Prod.snd).Nodup)
    (hi : entries.lookup i = some r) (hj : entries.lookup j = some r) :
    i = j := by
  have hmi := lookup_mem_pairs hi
  have hmj := lookup_mem_pairs hj
  have := List.inj_on_of_nodup_map hrefs hmi hmj rfl
  exact congrArg Prod.fst this

theorem runTestsLoop_log (lang : String) (execO : Nat → SubprocOutcome)
    (entries : List (Nat × Ref)) (mg : ℚ) (is : List Nat)
    (st : Heap × ℚ × List Nat) :
    (runTestsLoop lang execO entries mg is st).2.2 =
      st.2.2 ++ is.filter (fun i => (entries.lookup i).isSome) := by
  induction is generalizing st with
  | nil => simp [runTestsLoop]
  | cons i is ih =>
    cases hl : entries.lookup i with
    | none =>
      simp only [runTestsLoop, hl]
      rw [ih]
      simp [List.filter_cons, hl]
    | some r =>
      simp only [runTestsLoop, hl]
      rw [ih]
      simp [List.filter_cons, hl]

theorem runTestsLoop_heap_untouched (lang : String)
    (execO : Nat → SubprocOutcome) (entries : List (Nat × Ref)) (mg : ℚ)
    (is : List Nat) (st : Heap × ℚ × List Nat) (r : Ref)
    (h : ∀ i ∈ is, entries.lookup i ≠ some r) :
    (runTestsLoop lang execO entries mg is st).1 r = st.1 r := by
  induction is generalizing st with
  | nil => simp [runTestsLoop]
  | cons i is ih =>
    cases hl : entries.lookup i with
    | none =>
      simp only [runTestsLoop, hl]
      exact ih st fun j hj => h j (List.mem_cons_of_mem _ hj)
    | some r2 =>
      simp only [runTestsLoop, hl]
      rw [ih _ fun j hj => h j (List.mem_cons_of_mem _ hj)]
      have hne : r ≠ r2 := by
        intro hcon
        exact h i (List.mem_cons_self _ _) (hcon ▸ hl)
      simp only [if_neg hne]

theorem runTestsLoop_heap_written (lang : String)
    (execO : Nat → SubprocOutcome) (entries : List (Nat × Ref)) (mg : ℚ)
    (is : List Nat) (st : Heap × ℚ × List Nat) (i : Nat) (r : Ref)
    (hmem : i ∈ is) (hnodup : is.Nodup)
    (hlook : entries.lookup i = some r)
    (hrefs : (entries.map Prod.snd).Nodup) :
    (runTestsLoop lang execO entries mg is st).1 r =
      stepUpdate lang execO i (st.1 r) := by
  induction is generalizing st with
  | nil => cases hmem
  | cons j js ih =>
    by_cases hij : i = j
    · subst hij
      rw [List.nodup_cons] at hnodup
      simp only [runTestsLoop, hlook]
      have hrest : ∀ k ∈ js, entries.lookup k ≠ some r := by
        intro k hk hcon
        exact hnodup.1 ((lookup_ref_inj hrefs hcon hlook) ▸ hk)
      rw [runTestsLoop_heap_untouched lang execO entries mg js _ r hrest]
      simp
    · have hmem2 : i ∈ js := by
        cases List.mem_cons.mp hmem with
        | inl h => exact absurd h hij
        | inr h => exact h
      rw [List.nodup_cons] at hnodup
      cases hl : entries.lookup j with
      | none =>
        simp only [runTestsLoop, hl]
        exact ih _ hmem2 hnodup.2
      | some r2 =>
        have hne : r ≠ r2 := by
          intro hcon
          exact hij (lookup_ref_inj hrefs hlook (hcon ▸ hl))
        simp only [runTestsLoop, hl]
        rw [ih _ hmem2 hnodup.2]
        simp only [if_neg hne]

theorem runTestsLoop_total (lang : String)
    (execO : Nat → SubprocOutcome) (entries : List (Nat × Ref)) (mg : ℚ)
    (is : List Nat) (st : Heap × ℚ × List Nat)
    (hnodup : is.Nodup) (hrefs : (entries.map Prod.snd).Nodup) :
    (runTestsLoop lang execO entries mg is st).2.1 =
      st.2.1 + (is.map (contribution lang execO entries st.1 mg)).sum := by
  induction is generalizing st with
  | nil => simp [runTestsLoop]
  | cons i is ih =>
    rw [List.nodup_cons] at hnodup
    cases hl : entries.lookup i with
    | none =>
      simp only [runTestsLoop, hl]
      rw [ih _ hnodup.2]
      simp only [List.map_cons, List.sum_cons, contribution, hl]
      ring
    | some r =>
      simp only [runTestsLoop, hl]
      rw [ih _ hnodup.2]
      have hmapeq : is.map (contribution lang execO entries
          (fun ρ => if ρ = r then stepUpdate lang execO i (st.1 r)
            else st.1 ρ) mg) =
          is.map (contribution lang execO entries st.1 mg) := by
        apply List.map_congr_left
        intro k hk
        unfold contribution
        cases hlk : entries.lookup k with
        | none => rfl
        | some r2 =>
          have hne : r2 ≠ r := by
            intro hcon
            exact hnodup.1 ((lookup_ref_inj hrefs (hcon ▸ hlk) hl) ▸ hk)
          simp only [if_neg hne]
      rw [hmapeq]
      simp only [List.map_cons, List.sum_cons, contribution, hl]
      by_cases hpass : stepStatus lang execO i ((st.1 r).output) =
          TStatus.success
      · rw [if_pos hpass, if_pos hpass]
        ring
      · rw [if_neg hpass, if_neg hpass]
        ring

/-- Python `round` at an exact integer. -/
theorem round2_int (n : ℤ) : round2 ((n : ℤ) : ℚ) = (n : ℚ) := by
  unfold round2 roundHalfEven
  have h1 : ((n : ℚ) * 100) = (((100 * n : ℤ) : ℤ) : ℚ) := by
    push_cast
    ring
  rw [h1, Int.floor_intCast]
  rw [if_pos (by simp)]
  push_cast
  ring

/-- Claim C3: for every submission, test suite and maxGrade, if
compilation fails — including the unsupported-language case, which
always fails — `run_tests` returns a report with `build_status =
failed` and `grade = 0`, executes no test case (empty execution log)
and leaves every test object untouched. -/
theorem claim_C3_compile_failure_terminal (lang : String)
    (compileO : CompileOutcome) (execO : Nat → SubprocOutcome)
    (tests : TestsDict) (heap : Heap) (mg : ℚ)
    (hfail : (compile_code lang compileO).1 = false) :
    (run_tests lang compileO execO tests heap mg).1.build_status =
        BuildStatus.failed ∧
    (run_tests lang compileO execO tests heap mg).1.grade = 0 ∧
    (run_tests lang compileO execO tests heap mg).2.2 = [] ∧
    (∀ r, (run_tests lang compileO execO tests heap mg).2.1 r =
      heap r) ∧
    (∀ l2 o2, l2 ∉ supportedLangs → (compile_code l2 o2).1 = false) := by
  have hrun : run_tests lang compileO execO tests heap mg =
      ({ build_status := BuildStatus.failed,
         build_message := (compile_code lang compileO).2.2,
         tests := tests, grade := 0 }, heap, []) := by
    simp [run_tests, hfail]
  refine ⟨by rw [hrun], by rw [hrun], by rw [hrun], fun r => by rw [hrun],
    ?_⟩
  intro l2 o2 h
  unfold compile_code
  rw [if_neg h]

/-- Witness for claim C3: an explicit failing build. -/
theorem claim_C3_compile_failure_terminal_witness :
    (run_tests "java" (CompileOutcome.fail (str "Compilation error: x"))
        (fun _ => SubprocOutcome.timeoutExp)
        ⟨1, [(1, 0)]⟩ (fun _ => default) 10).1.build_status =
      BuildStatus.failed ∧
    (run_tests "java" (CompileOutcome.fail (str "Compilation error: x"))
        (fun _ => SubprocOutcome.timeoutExp)
        ⟨1, [(1, 0)]⟩ (fun _ => default) 10).1.grade = 0 ∧
    (run_tests "java" (CompileOutcome.fail (str "Compilation error: x"))
        (fun _ => SubprocOutcome.timeoutExp)
        ⟨1, [(1, 0)]⟩ (fun _ => default) 10).2.2 = [] := by
  obtain ⟨h1, h2, h3, -, -⟩ := claim_C3_compile_failure_terminal "java"
    (CompileOutcome.fail (str "Compilation error: x"))
    (fun _ => SubprocOutcome.timeoutExp)
    ⟨1, [(1, 0)]⟩ (fun _ => default) 10 (by rfl)
  exact ⟨h1, h2, h3⟩

/-- On a successful build, the grade is the rounded sum of the
per-test declarative contributions. -/
theorem run_tests_grade_eq (lang : String) (compileO : CompileOutcome)
    (execO : Nat → SubprocOutcome) (tests : TestsDict) (heap : Heap)
    (mg : ℚ) (hok : (compile_code lang compileO).1 = true)
    (hrefs : (tests.entries.map Prod.snd).Nodup) :
    (run_tests lang compileO execO tests heap mg).1.grade =
      round2 (((List.range' 1 tests.count).map
        (contribution lang execO tests.entries heap mg)).sum) := by
  simp only [run_tests, hok, if_pos]
  rw [runTestsLoop_total lang execO tests.entries mg _ _
    (List.nodup_range' _ _ 1 Nat.one_pos) hrefs]
  rw [zero_add]

/-- On a successful build, the execution log lists exactly the ids in
`1..count` present in the dictionary, in order. -/
theorem run_tests_log_eq (lang : String) (compileO : CompileOutcome)
    (execO : Nat → SubprocOutcome) (tests : TestsDict) (heap : Heap)
    (mg : ℚ) (hok : (compile_code lang compileO).1 = true) :
    (run_tests lang compileO execO tests heap mg).2.2 =
      (List.range' 1 tests.count).filter
        (fun j => (tests.entries.lookup j).isSome) := by
  simp only [run_tests, hok, if_pos]
  rw [runTestsLoop_log]
  rw [List.nil_append]

/-- On a successful build, the final value of the test object of an
executed id `i` is its original value with the outcome of `run_code`
for `i` written in. -/
theorem run_tests_heap_eq (lang : String) (compileO : CompileOutcome)
    (execO : Nat → SubprocOutcome) (tests : TestsDict) (heap : Heap)
    (mg : ℚ) (i : Nat) (r : Ref)
    (hok : (compile_code lang compileO).1 = true)
    (hrefs : (tests.entries.map Prod.snd).Nodup)
    (hlook : tests.entries.lookup i = some r)
    (hrange : i ∈ List.range' 1 tests.count) :
    (run_tests lang compileO execO tests heap mg).2.1 r =
      stepUpdate lang execO i (heap r) := by
  simp only [run_tests, hok, if_pos]
  exact runTestsLoop_heap_written lang execO tests.entries mg _ _ i r
    hrange (List.nodup_range' _ _ 1 Nat.one_pos) hlook hrefs

/-- Claim C10: if an id `i` in `1..count` has no entry in the tests
dictionary, `run_tests` does not raise or abort: it silently skips the
missing id (it is never executed and contributes `0` to the grade) and
still executes all remaining present ids. -/
theorem claim_C10_missing_id_skipped (lang : String)
    (compileO : CompileOutcome) (execO : Nat → SubprocOutcome)
    (tests : TestsDict) (heap : Heap) (mg : ℚ) (i : Nat)
    (hok : (compile_code lang compileO).1 = true)
    (hrefs : (tests.entries.map Prod.snd).Nodup)
    (hmiss : tests.entries.lookup i = none) :
    (run_tests lang compileO execO tests heap mg).2.2 =
      (List.range' 1 tests.count).filter
        (fun j => (tests.entries.lookup j).isSome) ∧
    i ∉ (run_tests lang compileO execO tests heap mg).2.2 ∧
    contribution lang execO tests.entries heap mg i = 0 ∧
    (run_tests lang compileO execO tests heap mg).1.grade =
      round2 (((List.range' 1 tests.count).map
        (contribution lang execO tests.entries heap mg)).sum) := by
  refine ⟨run_tests_log_eq lang compileO execO tests heap mg hok, ?_,
    ?_, run_tests_grade_eq lang compileO execO tests heap mg hok hrefs⟩
  · rw [run_tests_log_eq lang compileO execO tests heap mg hok]
    intro hcon
    have := (List.mem_filter.mp hcon).2
    rw [hmiss] at this
    simp at this
  · unfold contribution
    rw [hmiss]

/-- A suite dictionary claiming two tests but holding only id 1. -/
def wTestsGap : TestsDict := ⟨2, [(1, 0)]⟩

/-- A one-object heap fixture. -/
def wHeap : Heap := fun _ =>
  { id := 1, value := 100, input := str "x", output := str "4\n",
    explanation := [], difficulty := 1 }

/-- Witness for claim C10: with `count = 2` but id 2 absent, the run
executes exactly id 1. -/
theorem claim_C10_missing_id_skipped_witness :
    (run_tests "python" (CompileOutcome.ok (str "s.py") (str "ok"))
        (fun _ => SubprocOutcome.finished 0 (str "4") [])
        wTestsGap wHeap 10).2.2 = [1] ∧
    2 ∉ (run_tests "python" (CompileOutcome.ok (str "s.py") (str "ok"))
        (fun _ => SubprocOutcome.finished 0 (str "4") [])
        wTestsGap wHeap 10).2.2 := by
  obtain ⟨hlog, hnot, -, -⟩ := claim_C10_missing_id_skipped "python"
    (CompileOutcome.ok (str "s.py") (str "ok"))
    (fun _ => SubprocOutcome.finished 0 (str "4") [])
    wTestsGap wHeap 10 2 (by rfl) (by decide) (by rfl)
  refine ⟨?_, hnot⟩
  rw [hlog]
  decide

/-- Claim C4: an executed test passes iff `run_code` succeeded (no
timeout, no runtime failure, no staging exception) and the actual
output equals the expected output after removing leading/trailing
whitespace only (internal whitespace compared exactly); in particular
expected `"4\n"` vs actual `"4"` passes while expected `"4 5"` vs
actual `"4  5"` fails. -/
theorem claim_C4_pass_iff_trimmed_eq (lang : String)
    (compileO : CompileOutcome) (execO : Nat → SubprocOutcome)
    (tests : TestsDict) (heap : Heap) (mg : ℚ) (i : Nat) (r : Ref)
    (hok : (compile_code lang compileO).1 = true)
    (hrefs : (tests.entries.map Prod.snd).Nodup)
    (hlook : tests.entries.lookup i = some r)
    (hrange : i ∈ List.range' 1 tests.count) :
    (((run_tests lang compileO execO tests heap mg).2.1 r).status =
        some TStatus.success ↔
      ((run_code lang (execO i)).1 = true ∧
        pyStrip (run_code lang (execO i)).2.1 =
          pyStrip ((heap r).output))) ∧
    pyStrip (str "4\n") = pyStrip (str "4") ∧
    pyStrip (str "4 5") ≠ pyStrip (str "4  5") := by
  refine ⟨?_, by decide, by decide⟩
  rw [run_tests_heap_eq lang compileO execO tests heap mg i r hok hrefs
    hlook hrange]
  show some (stepStatus lang execO i ((heap r).output)) =
      some TStatus.success ↔ _
  unfold stepStatus
  by_cases hc : (run_code lang (execO i)).1 = true ∧
      pyStrip (run_code lang (execO i)).2.1 = pyStrip ((heap r).output)
  · rw [if_pos hc]
    exact iff_of_true rfl hc
  · rw [if_neg hc]
    refine iff_of_false ?_ hc
    intro hcon
    have := Option.some.inj hcon
    exact absurd this (by decide)

/-- A one-entry suite dictionary. -/
def wTests1 : TestsDict := ⟨1, [(1, 0)]⟩

/-- Witness for claim C4: expected `"4\n"`, actual `"4"`, exit code 0:
the test passes. -/
theorem claim_C4_pass_iff_trimmed_eq_witness :
    ((run_tests "python" (CompileOutcome.ok (str "s.py") (str "ok"))
        (fun _ => SubprocOutcome.finished 0 (str "4") [])
        wTests1 wHeap 10).2.1 0).status = some TStatus.success := by
  have h := (claim_C4_pass_iff_trimmed_eq "python"
    (CompileOutcome.ok (str "s.py") (str "ok"))
    (fun _ => SubprocOutcome.finished 0 (str "4") [])
    wTests1 wHeap 10 1 0 (by rfl) (by decide) (by rfl) (by decide)).1
  exact h.mpr (by decide)

/-- Claim C6: a per-test failure is local.  If test `i` hits the
wall-clock timeout, its outcome records `failed` with the
timeout-specific error message, and every other present id in
`1..count` is still executed — the log equals the full list of present
ids regardless of outcomes; only a compile failure aborts (claim C3). -/
theorem claim_C6_per_test_failure_local (lang : String)
    (compileO : CompileOutcome) (execO : Nat → SubprocOutcome)
    (tests : TestsDict) (heap : Heap) (mg : ℚ) (i : Nat) (r : Ref)
    (hok : (compile_code lang compileO).1 = true)
    (hrefs : (tests.entries.map Prod.snd).Nodup)
    (hlook : tests.entries.lookup i = some r)
    (hrange : i ∈ List.range' 1 tests.count)
    (htime : execO i = SubprocOutcome.timeoutExp) :
    (((run_tests lang compileO execO tests heap mg).2.1 r).status =
      some TStatus.failed) ∧
    (((run_tests lang compileO execO tests heap mg).2.1 r).error =
      some (str "Execution timed out after 10 seconds")) ∧
    ((run_tests lang compileO execO tests heap mg).2.2 =
      (List.range' 1 tests.count).filter
        (fun j => (tests.entries.lookup j).isSome)) ∧
    (∀ j, j ∈ List.range' 1 tests.count →
      (tests.entries.lookup j).isSome = true →
      j ∈ (run_tests lang compileO execO tests heap mg).2.2) := by
  have hsup : lang ∈ supportedLangs := by
    by_contra hcon
    unfold compile_code at hok
    rw [if_neg hcon] at hok
    exact absurd hok (by decide)
  have hrc : run_code lang (execO i) =
      (false, [], some (str "Execution timed out after " ++
        (Nat.repr EXECUTION_TIMEOUT).data ++ str " seconds")) := by
    rw [htime]
    unfold run_code
    rw [if_pos hsup]
  have hmsg : str "Execution timed out after " ++
      (Nat.repr EXECUTION_TIMEOUT).data ++ str " seconds" =
      str "Execution timed out after 10 seconds" := by decide
  have hheap := run_tests_heap_eq lang compileO execO tests heap mg i r
    hok hrefs hlook hrange
  refine ⟨?_, ?_, run_tests_log_eq lang compileO execO tests heap mg hok,
    ?_⟩
  · rw [hheap]
    show some (stepStatus lang execO i ((heap r).output)) = _
    unfold stepStatus
    rw [if_neg ?hneg]
    case hneg =>
      intro hcon
      rw [hrc] at hcon
      exact absurd hcon.1 (by decide)
  · rw [hheap]
    show (match (run_code lang (execO i)).2.2 with
      | some e => some e
      | none => (heap r).error) = _
    rw [hrc, hmsg]
  · intro j hj hsome
    rw [run_tests_log_eq lang compileO execO tests heap mg hok]
    exact List.mem_filter.mpr ⟨hj, hsome⟩

/-- A two-entry suite dictionary over refs 0 and 1. -/
def wTests2 : TestsDict := ⟨2, [(1, 0), (2, 1)]⟩

/-- Witness for claim C6: test 1 times out, test 2 still runs. -/
theorem claim_C6_per_test_failure_local_witness :
    (((run_tests "python" (CompileOutcome.ok (str "s.py") (str "ok"))
        (fun j => if j = 1 then SubprocOutcome.timeoutExp
          else SubprocOutcome.finished 0 (str "4") [])
        wTests2 wHeap 10).2.1 0).status = some TStatus.failed) ∧
    (((run_tests "python" (CompileOutcome.ok (str "s.py") (str "ok"))
        (fun j => if j = 1 then SubprocOutcome.timeoutExp
          else SubprocOutcome.finished 0 (str "4") [])
        wTests2 wHeap 10).2.1 0).error =
      some (str "Execution timed out after 10 seconds")) ∧
    ((run_tests "python" (CompileOutcome.ok (str "s.py") (str "ok"))
        (fun j => if j = 1 then SubprocOutcome.timeoutExp
          else SubprocOutcome.finished 0 (str "4") [])
        wTests2 wHeap 10).2.2 = [1, 2]) := by
  obtain ⟨h1, h2, h3, -⟩ := claim_C6_per_test_failure_local "python"
    (CompileOutcome.ok (str "s.py") (str "ok"))
    (fun j => if j = 1 then SubprocOutcome.timeoutExp
      else SubprocOutcome.finished 0 (str "4") [])
    wTests2 wHeap 10 1 0 (by rfl) (by decide) (by rfl) (by decide)
    (by rfl)
  refine ⟨h1, h2, ?_⟩
  rw [h3]
  decide

/-- A two-object heap with weights 50/50 and expected outputs
`"a"` / `"b"`. -/
def c5Heap : Heap := fun ρ =>
  if ρ = 0 then
    { id := 1, value := 50, input := str "i1", output := str "a",
      explanation := [], difficulty := 1 }
  else
    { id := 2, value := 50, input := str "i2", output := str "b",
      explanation := [], difficulty := 1 }

/-- Sandbox behaviour where both tests produce their expected output. -/
def c5ExecBoth : Nat → SubprocOutcome := fun j =>
  if j = 1 then SubprocOutcome.finished 0 (str "a") []
  else SubprocOutcome.finished 0 (str "b") []

/-- Sandbox behaviour where only test 1 produces its expected output. -/
def c5ExecOne : Nat → SubprocOutcome := fun j =>
  if j = 1 then SubprocOutcome.finished 0 (str "a") []
  else SubprocOutcome.finished 0 (str "nope") []

/-- Claim C5: each passing test contributes exactly
`weight/100 * maxGrade` and the final grade is the sum of the
contributions rounded to two decimal places; in particular for a 50/50
two-test suite with `maxGrade = 10` the grade is `10` when both pass
and `5` when exactly one passes. -/
theorem claim_C5_weighted_score (lang : String)
    (compileO : CompileOutcome) (execO : Nat → SubprocOutcome)
    (tests : TestsDict) (heap : Heap) (mg : ℚ)
    (hok : (compile_code lang compileO).1 = true)
    (hrefs : (tests.entries.map Prod.snd).Nodup) :
    ((run_tests lang compileO execO tests heap mg).1.grade =
      round2 (((List.range' 1 tests.count).map
        (contribution lang execO tests.entries heap mg)).sum)) ∧
    (run_tests "c" (CompileOutcome.ok (str "exe") (str "ok")) c5ExecBoth
        wTests2 c5Heap 10).1.grade = 10 ∧
    (run_tests "c" (CompileOutcome.ok (str "exe") (str "ok")) c5ExecOne
        wTests2 c5Heap 10).1.grade = 5 := by
  refine ⟨run_tests_grade_eq lang compileO execO tests heap mg hok hrefs,
    ?_, ?_⟩
  · rw [run_tests_grade_eq "c" (CompileOutcome.ok (str "exe") (str "ok"))
      c5ExecBoth wTests2 c5Heap 10 (by rfl) (by decide)]
    have h1 : contribution "c" c5ExecBoth wTests2.entries c5Heap 10 1 =
        5 := by
      have hl : wTests2.entries.lookup 1 = some 0 := rfl
      simp only [contribution, hl]
      rw [if_pos (by decide)]
      norm_num [c5Heap]
    have h2 : contribution "c" c5ExecBoth wTests2.entries c5Heap 10 2 =
        5 := by
      have hl : wTests2.entries.lookup 2 = some 1 := rfl
      simp only [contribution, hl]
      rw [if_pos (by decide)]
      norm_num [c5Heap]
    rw [show List.range' 1 wTests2.count = [1, 2] from rfl]
    simp only [List.map_cons, List.map_nil, List.sum_cons, List.sum_nil,
      h1, h2]
    rw [show (5 + (5 + 0) : ℚ) = ((10 : ℤ) : ℚ) by norm_num, round2_int]
    norm_num
  · rw [run_tests_grade_eq "c" (CompileOutcome.ok (str "exe") (str "ok"))
      c5ExecOne wTests2 c5Heap 10 (by rfl) (by decide)]
    have h1 : contribution "c" c5ExecOne wTests2.entries c5Heap 10 1 =
        5 := by
      have hl : wTests2.entries.lookup 1 = some 0 := rfl
      simp only [contribution, hl]
      rw [if_pos (by decide)]
      norm_num [c5Heap]
    have h2 : contribution "c" c5ExecOne wTests2.entries c5Heap 10 2 =
        0 := by
      have hl : wTests2.entries.lookup 2 = some 1 := rfl
      simp only [contribution, hl]
      rw [if_neg (by decide)]
    rw [show List.range' 1 wTests2.count = [1, 2] from rfl]
    simp only [List.map_cons, List.map_nil, List.sum_cons, List.sum_nil,
      h1, h2]
    rw [show (5 + (0 + 0) : ℚ) = ((5 : ℤ) : ℚ) by norm_num, round2_int]
    norm_num

/-- Witness for claim C5 at the concrete 50/50 suite. -/
theorem claim_C5_weighted_score_witness :
    (run_tests "c" (CompileOutcome.ok (str "exe") (str "ok")) c5ExecBoth
        wTests2 c5Heap 10).1.grade = 10 ∧
    (run_tests "c" (CompileOutcome.ok (str "exe") (str "ok")) c5ExecOne
        wTests2 c5Heap 10).1.grade = 5 := by
  obtain ⟨-, h1, h2⟩ := claim_C5_weighted_score "c"
    (CompileOutcome.ok (str "exe") (str "ok")) c5ExecBoth wTests2 c5Heap
    10 (by rfl) (by decide)
  exact ⟨h1, h2⟩

/-- Counterexample to claim C9 as stated: the report's `tests` shares
the caller's per-test objects (`tests.copy()` is shallow), so after a
run the caller's TestCase entry has gained a `status` value — the
caller's suite is not left unchanged. -/
theorem claim_C9_counterexample :
    (run_tests "python" (CompileOutcome.ok (str "s.py") (str "ok"))
        (fun _ => SubprocOutcome.finished 0 (str "4\n") [])
        wTests1 wHeap 10).1.tests = wTests1 ∧
    ((run_tests "python" (CompileOutcome.ok (str "s.py") (str "ok"))
        (fun _ => SubprocOutcome.finished 0 (str "4\n") [])
        wTests1 wHeap 10).2.1 0).status = some TStatus.success ∧
    (wHeap 0).status = none := by
  refine ⟨rfl, ?_, rfl⟩
  rw [run_tests_heap_eq "python" (CompileOutcome.ok (str "s.py")
      (str "ok")) (fun _ => SubprocOutcome.finished 0 (str "4\n") [])
      wTests1 wHeap 10 1 0 (by rfl) (by decide) (by rfl) (by decide)]
  decide

/-- Claim C9 (amended): `run_tests` copies only the top-level dictionary
(the returned report references the caller's id-to-object mapping
unchanged), and every test object keeps its `id`, `value` (weight),
`input`, `output`, `explanation` and `difficulty` fields; however the
outcome fields (`run_output`, `status`, `error`) of executed tests are
written into the caller's shared objects, as the counterexample
shows. -/
theorem claim_C9_amended_core_fields_preserved (lang : String)
    (compileO : CompileOutcome) (execO : Nat → SubprocOutcome)
    (tests : TestsDict) (heap : Heap) (mg : ℚ)
    (hrefs : (tests.entries.map Prod.snd).Nodup) :
    (run_tests lang compileO execO tests heap mg).1.tests = tests ∧
    ∀ r,
      ((run_tests lang compileO execO tests heap mg).2.1 r).id =
        (heap r).id ∧
      ((run_tests lang compileO execO tests heap mg).2.1 r).value =
        (heap r).value ∧
      ((run_tests lang compileO execO tests heap mg).2.1 r).input =
        (heap r).input ∧
      ((run_tests lang compileO execO tests heap mg).2.1 r).output =
        (heap r).output ∧
      ((run_tests lang compileO execO tests heap mg).2.1 r).explanation =
        (heap r).explanation ∧
      ((run_tests lang compileO execO tests heap mg).2.1 r).difficulty =
        (heap r).difficulty := by
  by_cases hc : (compile_code lang compileO).1 = true
  · refine ⟨by simp [run_tests, hc], ?_⟩
    intro r
    by_cases hw : ∃ i, i ∈ List.range' 1 tests.count ∧
        tests.entries.lookup i = some r
    · obtain ⟨i, hi, hl⟩ := hw
      rw [run_tests_heap_eq lang compileO execO tests heap mg i r hc
        hrefs hl hi]
      exact ⟨rfl, rfl, rfl, rfl, rfl, rfl⟩
    · push_neg at hw
      have huntouched :
          (run_tests lang compileO execO tests heap mg).2.1 r =
            heap r := by
        simp only [run_tests, hc, if_pos]
        exact runTestsLoop_heap_untouched lang execO tests.entries mg _
          _ r fun i hi => hw i hi
      rw [huntouched]
      exact ⟨rfl, rfl, rfl, rfl, rfl, rfl⟩
  · rw [Bool.not_eq_true] at hc
    have hrun : run_tests lang compileO execO tests heap mg =
        ({ build_status := BuildStatus.failed,
           build_message := (compile_code lang compileO).2.2,
           tests := tests, grade := 0 }, heap, []) := by
      simp [run_tests, hc]
    rw [hrun]
    exact ⟨rfl, fun r => ⟨rfl, rfl, rfl, rfl, rfl, rfl⟩⟩

/-- Witness for the amended claim C9 at a concrete passing run. -/
theorem claim_C9_amended_core_fields_preserved_witness :
    (run_tests "python" (CompileOutcome.ok (str "s.py") (str "ok"))
        (fun _ => SubprocOutcome.finished 0 (str "4\n") [])
        wTests1 wHeap 10).1.tests = wTests1 ∧
    ((run_tests "python" (CompileOutcome.ok (str "s.py") (str "ok"))
        (fun _ => SubprocOutcome.finished 0 (str "4\n") [])
        wTests1 wHeap 10).2.1 0).output = (wHeap 0).output ∧
    ((run_tests "python" (CompileOutcome.ok (str "s.py") (str "ok"))
        (fun _ => SubprocOutcome.finished 0 (str "4\n") [])
        wTests1 wHeap 10).2.1 0).value = (wHeap 0).value := by
  have h := claim_C9_amended_core_fields_preserved "python"
    (CompileOutcome.ok (str "s.py") (str "ok"))
    (fun _ => SubprocOutcome.finished 0 (str "4\n") [])
    wTests1 wHeap 10 (by decide)
  exact ⟨h.1, (h.2 0).2.2.2.1, (h.2 0).2.1⟩

/-! ### Claim C8: the Docker invocation shapes.

`CodeRunner.run_code` and the three `CompilerService._compile_*`
functions build their `docker run` argument lists verbatim; the
builders below mirror them (`src/services/code_runner.py` lines
157-168, `src/services/compiler.py` lines 78-88, 135-145, 184-194).
The f-string pieces become explicit string appends. -/

/-- `f"{MAX_CPU_LIMIT}"` with `MAX_CPU_LIMIT = 1.0`. -/
def MAX_CPU_LIMIT_STR : String := "1.0"

/-- The common execution command shape of `run_code`. -/
def run_docker_cmd (container_name execDir inputDir runStr : String) :
    List String :=
  ["docker", "run", "--rm",
   "--memory", Nat.repr MAX_MEMORY_MB ++ "m",
   "--cpus", MAX_CPU_LIMIT_STR,
   "--network", "none",
   "-u", SANDBOX_USER,
   "-v", execDir ++ ":/exec:ro",
   "-v", inputDir ++ ":/input:ro",
   container_name, "bash", "-c", runStr]

def run_c_cmd (execDir inputDir execName inputName : String) :
    List String :=
  run_docker_cmd "c-compiler:latest" execDir inputDir
    ("bash -c \x27cat /input/" ++ inputName ++ " | /exec/" ++ execName
      ++ "\x27")

def run_cpp_cmd (execDir inputDir execName inputName : String) :
    List String :=
  run_docker_cmd "cpp-compiler:latest" execDir inputDir
    ("bash -c \x27cat /input/" ++ inputName ++ " | /exec/" ++ execName
      ++ "\x27")

def run_python_cmd (execDir inputDir execName inputName : String) :
    List String :=
  run_docker_cmd "python-compiler:latest" execDir inputDir
    ("bash -c \x27python3 /exec/" ++ execName ++ " < /input/" ++
      inputName ++ "\x27")

def run_java_cmd (execDir inputDir inputName : String) : List String :=
  run_docker_cmd "java-compiler:latest" execDir inputDir
    ("bash -c \x27cd /exec && cat /input/" ++ inputName ++
      " | java Solution\x27")

/-- The common build command shape of the `_compile_*` functions (note
`"-u", "root"`: the build runs as root "to bypass permission
issues"). -/
def build_docker_cmd (container_name sourceDir buildStr : String) :
    List String :=
  ["docker", "run", "--rm",
   "--memory", Nat.repr MAX_MEMORY_MB ++ "m",
   "--cpus", MAX_CPU_LIMIT_STR,
   "--network", "none",
   "-v", sourceDir ++ ":/src:rw",
   "-u", "root",
   container_name, "bash", "-c", buildStr]

def compile_c_cmd (sourceDir executableName sourceName : String) :
    List String :=
  build_docker_cmd "c-compiler:latest" sourceDir
    ("gcc -o /src/" ++ executableName ++ " /src/" ++ sourceName ++
      " && chmod 755 /src/" ++ executableName)

def compile_cpp_cmd (sourceDir executableName sourceName : String) :
    List String :=
  build_docker_cmd "cpp-compiler:latest" sourceDir
    ("g++ -o /src/" ++ executableName ++ " /src/" ++ sourceName ++
      " && chmod 755 /src/" ++ executableName)

def compile_java_cmd (sourceDir : String) : List String :=
  build_docker_cmd "java-compiler:latest" sourceDir
    "cd /src && javac Solution.java && chmod 755 /src/*.class"

/-- The value following the first `-u` flag of a docker command. -/
def cmdUser : List String → Option String
  | [] => none
  | x :: rest => if x = "-u" then rest.head? else cmdUser rest

theorem cmdUser_cons_ne (x : String) (rest : List String)
    (h : ¬ x = "-u") : cmdUser (x :: rest) = cmdUser rest := by
  simp [cmdUser, h]

theorem cmdUser_cons_u (rest : List String) :
    cmdUser ("-u" :: rest) = rest.head? := by
  simp [cmdUser]

/-- The properties claim C8 promises of a per-test execution command. -/
def ExecShape (cmd : List String) (execDir inputDir : String) : Prop :=
  ["--network", "none"] <:+: cmd ∧
  ["--memory", "128m"] <:+: cmd ∧
  ["--cpus", "1.0"] <:+: cmd ∧
  cmdUser cmd = some SANDBOX_USER ∧
  SANDBOX_USER ≠ "root" ∧
  ["-v", execDir ++ ":/exec:ro"] <:+: cmd ∧
  ["-v", inputDir ++ ":/input:ro"] <:+: cmd

/-- The properties claim C8 promises of a build command, except that
the execution identity is in fact `root`. -/
def BuildShape (cmd : List String) (sourceDir : String) : Prop :=
  ["--network", "none"] <:+: cmd ∧
  ["--memory", "128m"] <:+: cmd ∧
  ["--cpus", "1.0"] <:+: cmd ∧
  cmdUser cmd = some "root" ∧
  ["-v", sourceDir ++ ":/src:rw"] <:+: cmd

/-- Counterexample to claim C8 as stated: the C build command runs the
container as `root`, a privileged identity, not as the unprivileged
sandbox user. -/
theorem claim_C8_counterexample :
    cmdUser (compile_c_cmd "/app/temp" "solution_1" "solution_1.c") =
      some "root" ∧
    "root" ≠ SANDBOX_USER := by
  exact ⟨rfl, by decide⟩

theorem execShape_of_run_docker_cmd (container execDir inputDir
    runStr : String) :
    ExecShape (run_docker_cmd container execDir inputDir runStr)
      execDir inputDir := by
  refine ⟨?_, ?_, ?_, rfl, by decide, ?_, ?_⟩
  · exact List.infix_append ["docker", "run", "--rm", "--memory",
      Nat.repr MAX_MEMORY_MB ++ "m", "--cpus", MAX_CPU_LIMIT_STR] _ _
  · exact List.infix_append ["docker", "run", "--rm"] _ _
  · exact List.infix_append ["docker", "run", "--rm", "--memory",
      Nat.repr MAX_MEMORY_MB ++ "m"] _ _
  · exact List.infix_append ["docker", "run", "--rm", "--memory",
      Nat.repr MAX_MEMORY_MB ++ "m", "--cpus", MAX_CPU_LIMIT_STR,
      "--network", "none", "-u", SANDBOX_USER] _ _
  · exact List.infix_append ["docker", "run", "--rm", "--memory",
      Nat.repr MAX_MEMORY_MB ++ "m", "--cpus", MAX_CPU_LIMIT_STR,
      "--network", "none", "-u", SANDBOX_USER, "-v",
      execDir ++ ":/exec:ro"] _ _

theorem buildShape_of_build_docker_cmd (container sourceDir
    buildStr : String) :
    BuildShape (build_docker_cmd container sourceDir buildStr)
      sourceDir := by
  have hne : ¬ (sourceDir ++ ":/src:rw") = "-u" := by
    intro h
    have hl := congrArg String.length h
    rw [String.length_append] at hl
    rw [show (":/src:rw" : String).length = 8 from rfl,
      show ("-u" : String).length = 2 from rfl] at hl
    omega
  refine ⟨?_, ?_, ?_, ?_, ?_⟩
  · exact List.infix_append ["docker", "run", "--rm", "--memory",
      Nat.repr MAX_MEMORY_MB ++ "m", "--cpus", MAX_CPU_LIMIT_STR] _ _
  · exact List.infix_append ["docker", "run", "--rm"] _ _
  · exact List.infix_append ["docker", "run", "--rm", "--memory",
      Nat.repr MAX_MEMORY_MB ++ "m"] _ _
  · unfold build_docker_cmd
    rw [cmdUser_cons_ne _ _ (by decide), cmdUser_cons_ne _ _ (by decide),
      cmdUser_cons_ne _ _ (by decide), cmdUser_cons_ne _ _ (by decide),
      cmdUser_cons_ne _ _ (by decide), cmdUser_cons_ne _ _ (by decide),
      cmdUser_cons_ne _ _ (by decide), cmdUser_cons_ne _ _ (by decide),
      cmdUser_cons_ne _ _ (by decide), cmdUser_cons_ne _ _ (by decide),
      cmdUser_cons_ne _ _ hne, cmdUser_cons_u]
    rfl
  · exact List.infix_append ["docker", "run", "--rm", "--memory",
      Nat.repr MAX_MEMORY_MB ++ "m", "--cpus", MAX_CPU_LIMIT_STR,
      "--network", "none"] _ _

/-- Claim C8 (amended): every per-test execution command has networking
disabled, the configured memory and CPU caps, the unprivileged sandbox
user, and read-only mounts for code and input; every build command has
the same network/memory/CPU shape and a read-write mount for the
staging directory, but runs as `root` (a privileged identity), contrary
to the claim's unprivileged-identity requirement. -/
theorem claim_C8_amended_sandbox_shape (execDir inputDir execName
    inputName sourceDir executableName sourceName : String) :
    ExecShape (run_c_cmd execDir inputDir execName inputName)
      execDir inputDir ∧
    ExecShape (run_cpp_cmd execDir inputDir execName inputName)
      execDir inputDir ∧
    ExecShape (run_python_cmd execDir inputDir execName inputName)
      execDir inputDir ∧
    ExecShape (run_java_cmd execDir inputDir inputName)
      execDir inputDir ∧
    BuildShape (compile_c_cmd sourceDir executableName sourceName)
      sourceDir ∧
    BuildShape (compile_cpp_cmd sourceDir executableName sourceName)
      sourceDir ∧
    BuildShape (compile_java_cmd sourceDir) sourceDir :=
  ⟨execShape_of_run_docker_cmd _ _ _ _,
   execShape_of_run_docker_cmd _ _ _ _,
   execShape_of_run_docker_cmd _ _ _ _,
   execShape_of_run_docker_cmd _ _ _ _,
   buildShape_of_build_docker_cmd _ _ _,
   buildShape_of_build_docker_cmd _ _ _,
   buildShape_of_build_docker_cmd _ _ _⟩

end CodeTesting
